import Mathlib

/-
  Verification development for the Hyperlace compiler core
  (src/Compiler.cpp: lexer driver, parser, AST, macro engine,
  semantic analyzer, IR emitter, NASM backend).

  Text handled by the macro engine is modelled as List Char.
  Fallible stages return Except CompilerError; the constructors mirror
  the runtime_error messages thrown by the C++ code.
-/

--------------------------------------------------
-- Error taxonomy (the C++ code throws std::runtime_error with messages;
-- each constructor records which throw site fired)
--------------------------------------------------

inductive CompilerError where
  -- Parser::parseStatement: "Unexpected statement"
  | unexpectedStatement
  -- Parser::parseExpression: "Invalid expression"
  | invalidExpression
  -- SemanticAnalyzer::analyzeAssignment:
  -- "Semantic Error: Use of undeclared variable <name>"
  | undeclaredVariable (name : String)
  -- return-placement fragment: "Return statement used outside a function."
  | returnOutsideFunction
deriving DecidableEq

--------------------------------------------------
-- MACRO ENGINE (MacroExpander)
--------------------------------------------------

namespace MacroExpander

/-- The member std::unordered_map of MacroExpander, as a lookup function:
the map is only ever queried pointwise (find / operator[]), never iterated. -/
def Table : Type := List Char → Option (List Char)

/-- MacroExpander::define: macros[name] = replacement (insert or overwrite). -/
def define (t : Table) (name replacement : List Char) : Table :=
  fun k => if k = name then some replacement else t k

/-- Whitespace as skipped by std::istream word extraction (std::isspace,
default locale): space, tab, newline, vertical tab, form feed, carriage
return. -/
def isWS (c : Char) : Bool :=
  c == ' ' || c == '\t' || c == '\n' || c == '\r' || c.toNat == 11 || c.toNat == 12

/-- Word splitting as performed by the while (stream >> word) loop in
MacroExpander::expand: the maximal runs of non-whitespace characters, in
order.  cur accumulates the current word in reverse. -/
def swAux (cur : List Char) : List Char → List (List Char)
  | [] => if cur = [] then [] else [cur.reverse]
  | c :: cs =>
    if isWS c then
      (if cur = [] then swAux [] cs else cur.reverse :: swAux [] cs)
    else
      swAux (c :: cur) cs

def splitWords (cs : List Char) : List (List Char) := swAux [] cs

/-- One word of the expansion loop body: if macros.find(word) hits, the
replacement text, else the word itself. -/
def substOne (m : Table) (w : List Char) : List Char := (m w).getD w

/-- The body of MacroExpander::expand after word extraction: for each word,
append the substituted word and a single space to the result. -/
def expandWords (m : Table) : List (List Char) → List Char
  | [] => []
  | w :: ws => substOne m w ++ ' ' :: expandWords m ws

/-- MacroExpander::expand: split the input into stream-extracted words and
rebuild the result with one substitution and one trailing space per word. -/
def expand (m : Table) (input : List Char) : List Char :=
  expandWords m (splitWords input)

/-- MacroExpander::loadDefaults applied to a fresh expander: the three
built-in macros, installed by successive defines. -/
def loadDefaults : Table :=
  define
    (define
      (define (fun _ => none) ("|inc|".toList) ("x = x + 1;".toList))
      ("|dec|".toList) ("x = x - 1;".toList))
    ("|reset|".toList) ("x = 0;".toList)

end MacroExpander

--------------------------------------------------
-- TOKENS
--------------------------------------------------

inductive TokenType where
  | identifier | number | string | keyword | symbol | comment
  | assign | immutableAssign | endOfLine | endOfFile
deriving DecidableEq

/-- A token; the C++ struct also records line and column, which no stage
after the lexer ever reads, so they are elided here. -/
structure Token where
  ttype : TokenType
  lexeme : String
deriving DecidableEq

--------------------------------------------------
-- AST NODES
--------------------------------------------------

inductive Expr where
  -- class NumberExpr
  | numberExpr (value : String)
  -- class IdentifierExpr
  | identifierExpr (name : String)
deriving DecidableEq

inductive Stmt where
  -- class Assignment
  | assignment (name : String) (value : Expr)
  -- struct FunctionDef
  | functionDef (name : String) (params : List String) (body : List Stmt)
  -- struct ReturnStatement
  | returnStmt

--------------------------------------------------
-- PARSER
--------------------------------------------------

namespace Parser

/-- Parser::peek, reading tokens[current]; out-of-range reads (which for a
well-formed stream ending in EndOfFile never occur) default to EndOfFile. -/
def peek (ts : List Token) (i : Nat) : Token :=
  ts.getD i ⟨TokenType.endOfFile, ""⟩

/-- Parser::parseExpression: a single Number or Identifier token, else
throws "Invalid expression".  On success the index advanced past the
matched token is returned. -/
def parseExpression (ts : List Token) (i : Nat) : Except CompilerError (Expr × Nat) :=
  match (peek ts i).ttype with
  | TokenType.number => Except.ok (Expr.numberExpr (peek ts i).lexeme, i + 1)
  | TokenType.identifier => Except.ok (Expr.identifierExpr (peek ts i).lexeme, i + 1)
  | _ => Except.error CompilerError.invalidExpression

/-- Parser::parseAssignment: read the identifier lexeme, advance, match an
optional Assign, parse the expression, match an optional EndOfLine. -/
def parseAssignment (ts : List Token) (i : Nat) : Except CompilerError (Stmt × Nat) :=
  let name := (peek ts i).lexeme
  let i1 := i + 1
  let i2 := if (peek ts i1).ttype = TokenType.assign then i1 + 1 else i1
  match parseExpression ts i2 with
  | Except.error e => Except.error e
  | Except.ok (e, i3) =>
    let i4 := if (peek ts i3).ttype = TokenType.endOfLine then i3 + 1 else i3
    Except.ok (Stmt.assignment name e, i4)

/-- Parser::parseStatement: an Identifier followed by Assign starts an
assignment; anything else throws "Unexpected statement". -/
def parseStatement (ts : List Token) (i : Nat) : Except CompilerError (Stmt × Nat) :=
  if (peek ts i).ttype = TokenType.identifier ∧ (peek ts (i + 1)).ttype = TokenType.assign then
    parseAssignment ts i
  else
    Except.error CompilerError.unexpectedStatement

/-- The while (!isAtEnd()) loop of Parser::parse.  Each successful
parseStatement advances the index by at least one, so fuel equal to the
token count plus one is never exhausted; the fuel-zero branch is dead. -/
def parseLoop : Nat → List Token → Nat → Except CompilerError (List Stmt)
  | 0, _, _ => Except.ok []
  | fuel + 1, ts, i =>
    if (peek ts i).ttype = TokenType.endOfFile then Except.ok []
    else
      match parseStatement ts i with
      | Except.error e => Except.error e
      | Except.ok (s, j) =>
        match parseLoop fuel ts j with
        | Except.error e => Except.error e
        | Except.ok rest => Except.ok (s :: rest)

/-- Parser::parse. -/
def parse (ts : List Token) : Except CompilerError (List Stmt) :=
  parseLoop (ts.length + 1) ts 0

end Parser

--------------------------------------------------
-- SEMANTIC ANALYZER
--------------------------------------------------

namespace SemanticAnalyzer

/-- The loop of SemanticAnalyzer::analyze with the declared set threaded
explicitly (membership in a List models the std::set).  For each
Assignment the target name is inserted BEFORE the value is inspected;
identifier values not in the set throw; statements that are not
Assignments are skipped by the dynamic_pointer_cast. -/
def analyzeAux (declared : List String) : List Stmt → Except CompilerError Unit
  | [] => Except.ok ()
  | Stmt.assignment t v :: rest =>
    match v with
    | Expr.identifierExpr u =>
      if u ∈ t :: declared then analyzeAux (t :: declared) rest
      else Except.error (CompilerError.undeclaredVariable u)
    | Expr.numberExpr _ => analyzeAux (t :: declared) rest
  | _ :: rest => analyzeAux declared rest

/-- SemanticAnalyzer::analyze: declared.clear() then the loop. -/
def analyze (stmts : List Stmt) : Except CompilerError Unit :=
  analyzeAux [] stmts

end SemanticAnalyzer

--------------------------------------------------
-- RETURN-PLACEMENT CHECK (the inFunction fragment of Compiler.cpp)
--------------------------------------------------

def isFnDef : Stmt → Bool
  | Stmt.functionDef _ _ _ => true
  | _ => false

def isReturn : Stmt → Bool
  | Stmt.returnStmt => true
  | _ => false

/-- The return-placement fragment: a global bool inFunction starts false;
a FunctionDef sets it true, walks the body recursively, then sets it
false; a ReturnStatement with inFunction false throws
"Return statement used outside a function." -/
def checkReturns (inF : Bool) : List Stmt → Except CompilerError Unit
  | [] => Except.ok ()
  | Stmt.functionDef _ _ body :: rest =>
    match checkReturns true body with
    | Except.error e => Except.error e
    | Except.ok _ => checkReturns false rest
  | Stmt.returnStmt :: rest =>
    if inF then checkReturns inF rest
    else Except.error CompilerError.returnOutsideFunction
  | Stmt.assignment _ _ :: rest => checkReturns inF rest

--------------------------------------------------
-- IR EMITTER
--------------------------------------------------

namespace IREmitter

/-- IREmitter::emit with the output stream modelled as the accumulated
string: STORE lines for Assignments (NUM for numbers, REF for
identifiers), other statements skipped. -/
def emit (stmts : List Stmt) : String :=
  stmts.foldl (fun acc s =>
    match s with
    | Stmt.assignment n (Expr.numberExpr v) =>
      acc ++ "STORE " ++ n ++ " <- " ++ "NUM(" ++ v ++ ")\n"
    | Stmt.assignment n (Expr.identifierExpr i) =>
      acc ++ "STORE " ++ n ++ " <- " ++ "REF(" ++ i ++ ")\n"
    | _ => acc) ""

end IREmitter

--------------------------------------------------
-- NASM CODE GENERATOR
--------------------------------------------------

namespace NASMGenerator

/-- NASMGenerator::generate with the output stream as the accumulated
string: a data section with one dq slot per Assignment, then the text
section with the _start entry label, the lowered top-level statements,
and the exit(0) syscall sequence. -/
def generate (stmts : List Stmt) : String :=
  let afterData := stmts.foldl (fun acc s =>
      match s with
      | Stmt.assignment n _ => acc ++ n ++ " dq 0\n"
      | _ => acc)
    "section .data\n"
  let afterText := stmts.foldl (fun acc s =>
      match s with
      | Stmt.assignment n (Expr.numberExpr v) =>
        acc ++ "    mov rax, " ++ v ++ "\n" ++ "    mov [" ++ n ++ "], rax\n"
      | Stmt.assignment n (Expr.identifierExpr i) =>
        acc ++ "    mov rax, [" ++ i ++ "]\n" ++ "    mov [" ++ n ++ "], rax\n"
      | _ => acc)
    (afterData ++ "\nsection .text\n global _start\n_start:\n")
  afterText ++ "    mov rax, 60\n    xor rdi, rdi\n    syscall\n"

/-- The data-section line contributed by one statement. -/
def dataLine : Stmt → String
  | Stmt.assignment n _ => n ++ " dq 0\n"
  | _ => ""

/-- The entry-point instructions contributed by one top-level statement. -/
def entryCode : Stmt → String
  | Stmt.assignment n (Expr.numberExpr v) =>
    "    mov rax, " ++ v ++ "\n" ++ "    mov [" ++ n ++ "], rax\n"
  | Stmt.assignment n (Expr.identifierExpr i) =>
    "    mov rax, [" ++ i ++ "]\n" ++ "    mov [" ++ n ++ "], rax\n"
  | _ => ""

/-- The process-exit tail of the entry point: exit(0) via syscall 60 with
rdi zeroed. -/
def exitSequence : String := "    mov rax, 60\n    xor rdi, rdi\n    syscall\n"

end NASMGenerator

--------------------------------------------------
-- LEXER (absent from src; only its caller appears in main)
--------------------------------------------------

def isIdentChar (c : Char) : Bool := c.isAlpha || c.isDigit || c == '_'

def keywords : List String := ["Start", "Init", "Return", "if", "else", "while", "for"]

/-- Modelled from the spec: the Lexer class (Lexer::tokenize) is missing
from src — main constructs it but no definition exists.  Following the
spec: whitespace is skipped, a hash begins a single-line comment, digit
runs are Number tokens, identifier runs are Keyword or Identifier tokens
with keyword classification taking priority, the double equals sign is
matched longest-first as ImmutableAssign before the single Assign, the
semicolon is EndOfLine, any other character is a single Symbol token, and
the sequence ends with one EndOfFile token.  Each step consumes at least
one character, so fuel equal to the input length plus one suffices. -/
def lexAux : Nat → List Char → List Token
  | 0, _ => [⟨TokenType.endOfFile, ""⟩]
  | _ + 1, [] => [⟨TokenType.endOfFile, ""⟩]
  | fuel + 1, c :: cs =>
    if MacroExpander.isWS c then lexAux fuel cs
    else if c == '#' then lexAux fuel (cs.dropWhile (fun d => d ≠ '\n'))
    else if c.isDigit then
      ⟨TokenType.number, (c :: cs.takeWhile Char.isDigit).asString⟩ ::
        lexAux fuel (cs.dropWhile Char.isDigit)
    else if c.isAlpha || c == '_' then
      let w := (c :: cs.takeWhile isIdentChar).asString
      (if w ∈ keywords then (⟨TokenType.keyword, w⟩ : Token) else ⟨TokenType.identifier, w⟩) ::
        lexAux fuel (cs.dropWhile isIdentChar)
    else if c == '=' then
      match cs with
      | '=' :: cs2 => ⟨TokenType.immutableAssign, "=="⟩ :: lexAux fuel cs2
      | _ => ⟨TokenType.assign, "="⟩ :: lexAux fuel cs
    else if c == ';' then ⟨TokenType.endOfLine, ";"⟩ :: lexAux fuel cs
    else ⟨TokenType.symbol, c.toString⟩ :: lexAux fuel cs

/-- Modelled from the spec: the tokenize entry point of the missing Lexer. -/
def lexer (cs : List Char) : List Token := lexAux (cs.length + 1) cs

--------------------------------------------------
-- FULL PIPELINE (main, up to the assembly artifact)
--------------------------------------------------

/-- The pipeline run by main on one compilation: macro expansion, lexing,
parsing, semantic analysis, NASM generation; any stage error aborts. -/
def compile (m : MacroExpander.Table) (src : List Char) : Except CompilerError String :=
  match Parser.parse (lexer (MacroExpander.expand m src)) with
  | Except.error e => Except.error e
  | Except.ok stmts =>
    match SemanticAnalyzer.analyze stmts with
    | Except.error e => Except.error e
    | Except.ok _ => Except.ok (NASMGenerator.generate stmts)

--------------------------------------------------
-- SPEC-SIDE PREDICATES
--------------------------------------------------

/-- The targets declared by a statement list: the assignment target names
in order (only assignments declare). -/
def targetsOf (stmts : List Stmt) : List String :=
  stmts.filterMap (fun s =>
    match s with
    | Stmt.assignment n _ => some n
    | _ => none)

/-- Identifier n is used before any enclosing declaration, relative to an
initially declared set d: some statement is an assignment whose value is
the identifier n, and n is neither initially declared nor the target of
that statement or any earlier one. -/
def usedBeforeDeclFrom (d : List String) (stmts : List Stmt) (n : String) : Prop :=
  ∃ i, ∃ h : i < stmts.length,
    (∃ t, stmts.get ⟨i, h⟩ = Stmt.assignment t (Expr.identifierExpr n)) ∧
    n ∉ d ∧ n ∉ targetsOf (stmts.take (i + 1))

/-- Identifier n is used before any enclosing declaration in the program. -/
def usedBeforeDecl (stmts : List Stmt) (n : String) : Prop :=
  usedBeforeDeclFrom [] stmts n

/-- No function body contains a nested function definition (the spec
restricts function declarations to the global scope). -/
def noNestedFn (stmts : List Stmt) : Bool :=
  stmts.all (fun s =>
    match s with
    | Stmt.functionDef _ _ body => body.all (fun t => !(isFnDef t))
    | _ => true)

/-- A word as produced by stream extraction: nonempty and free of
whitespace. -/
def normalWord (w : List Char) : Prop :=
  w ≠ [] ∧ ∀ c ∈ w, MacroExpander.isWS c = false

/-- A two-macro chain: the body of macro A is itself the invocation of
macro B. -/
def chainTable : MacroExpander.Table :=
  MacroExpander.define
    (MacroExpander.define (fun _ => none) ('A' :: []) ('B' :: []))
    ('B' :: []) ('x' :: [])

--------------------------------------------------
-- MACRO ENGINE LEMMAS
--------------------------------------------------

open MacroExpander

/-- A space inserted between two texts separates their words. -/
theorem swAux_append_space (a : List Char) :
    ∀ (cur b : List Char),
      swAux cur (a ++ ' ' :: b) = swAux cur a ++ swAux [] b := by
  induction a with
  | nil =>
    intro cur b
    show swAux cur (' ' :: b) = swAux cur [] ++ swAux [] b
    simp only [swAux]
    have hws : isWS ' ' = true := by decide
    rw [if_pos hws]
    by_cases hcur : cur = []
    · simp [hcur]
    · simp [hcur]
  | cons c a ih =>
    intro cur b
    show swAux cur (c :: (a ++ ' ' :: b)) = swAux cur (c :: a) ++ swAux [] b
    simp only [swAux]
    by_cases hc : isWS c = true
    · rw [if_pos hc, if_pos hc]
      by_cases hcur : cur = []
      · simp [hcur, ih]
      · simp [hcur, ih]
    · rw [if_neg hc, if_neg hc]
      exact ih (c :: cur) b

theorem splitWords_append_space (a b : List Char) :
    splitWords (a ++ ' ' :: b) = splitWords a ++ splitWords b :=
  swAux_append_space a [] b

/-- Every extracted word is nonempty and whitespace-free. -/
theorem swAux_mem_normal :
    ∀ (cs cur : List Char), (∀ c ∈ cur, isWS c = false) →
      ∀ w ∈ swAux cur cs, normalWord w := by
  intro cs
  induction cs with
  | nil =>
    intro cur hcur w hw
    simp only [swAux] at hw
    by_cases hc : cur = []
    · rw [if_pos hc] at hw; exact absurd hw (by simp)
    · rw [if_neg hc] at hw
      have hwr : w = cur.reverse := by simpa using hw
      subst hwr
      refine ⟨by simpa using hc, ?_⟩
      intro c hcmem
      exact hcur c (List.mem_reverse.mp hcmem)
  | cons c cs ih =>
    intro cur hcur w hw
    simp only [swAux] at hw
    by_cases hc : isWS c = true
    · rw [if_pos hc] at hw
      by_cases hcurnil : cur = []
      · rw [if_pos hcurnil] at hw
        exact ih [] (by simp) w hw
      · rw [if_neg hcurnil] at hw
        rcases List.mem_cons.mp hw with hwr | hw2
        · subst hwr
          refine ⟨by simpa using hcurnil, ?_⟩
          intro d hd
          exact hcur d (List.mem_reverse.mp hd)
        · exact ih [] (by simp) w hw2
    · rw [if_neg hc] at hw
      refine ih (c :: cur) ?_ w hw
      intro d hd
      rcases List.mem_cons.mp hd with hdc | hdcur
      · subst hdc; exact Bool.not_eq_true _ ▸ (by simpa using hc)
      · exact hcur d hdcur

theorem splitWords_mem_normal (cs : List Char) :
    ∀ w ∈ splitWords cs, normalWord w :=
  swAux_mem_normal cs [] (by simp)

/-- Splitting a single whitespace-free run yields that run. -/
theorem swAux_all_not_ws :
    ∀ (w cur : List Char), (∀ c ∈ w, isWS c = false) →
      swAux cur w = if cur.reverse ++ w = [] then [] else [cur.reverse ++ w] := by
  intro w
  induction w with
  | nil =>
    intro cur _
    simp only [swAux, List.append_nil]
    by_cases hc : cur = []
    · simp [hc]
    · simp [hc, List.reverse_eq_nil_iff]
  | cons c w ih =>
    intro cur h
    have hc : isWS c = false := h c (List.mem_cons_self c w)
    simp only [swAux, hc]
    rw [if_neg (by simp [hc])]
    rw [ih (c :: cur) (fun d hd => h d (List.mem_cons_of_mem c hd))]
    have hrev : (c :: cur).reverse ++ w = cur.reverse ++ c :: w := by
      simp [List.reverse_cons, List.append_assoc]
    rw [hrev]

theorem splitWords_normal (w : List Char) (hw : normalWord w) : splitWords w = [w] := by
  unfold splitWords
  rw [swAux_all_not_ws w [] hw.2]
  simp [hw.1]

theorem expandWords_append (m : Table) :
    ∀ (a b : List (List Char)),
      expandWords m (a ++ b) = expandWords m a ++ expandWords m b := by
  intro a b
  induction a with
  | nil => simp [expandWords]
  | cons w a ih => simp [expandWords, ih]

/-- The words of an expansion are exactly the words of each substituted
input word, in order: expansion performs one substitution per word and
never rescans its own output. -/
theorem splitWords_expandWords (m : Table) :
    ∀ ws : List (List Char),
      splitWords (expandWords m ws) = ws.flatMap (fun w => splitWords (substOne m w)) := by
  intro ws
  induction ws with
  | nil => simp [expandWords, splitWords, swAux]
  | cons w ws ih =>
    show splitWords (substOne m w ++ ' ' :: expandWords m ws) = _
    rw [splitWords_append_space, ih]
    simp [List.flatMap]

theorem expandWords_eq_of_none (m : Table) :
    ∀ ws : List (List Char), (∀ w ∈ ws, m w = none) →
      expandWords m ws = expandWords (fun _ => none) ws := by
  intro ws
  induction ws with
  | nil => intro _; rfl
  | cons w ws ih =>
    intro h
    have hw : m w = none := h w (List.mem_cons_self w ws)
    simp only [expandWords, substOne, hw, Option.getD_none]
    rw [ih (fun v hv => h v (List.mem_cons_of_mem w hv))]

/-- Under the default table, re-splitting and re-expanding one substituted
word reproduces it: default bodies are single-spaced and contain no macro
names. -/
theorem defaults_substOne_expand (w : List Char) (hw : normalWord w) :
    expandWords loadDefaults (splitWords (substOne loadDefaults w)) =
      substOne loadDefaults w ++ [' '] := by
  rcases hlw : loadDefaults w with _ | b
  · simp only [substOne, hlw, Option.getD_none]
    rw [splitWords_normal w hw]
    simp [expandWords, substOne, hlw]
  · have hcases : (w = "|reset|".toList ∧ b = "x = 0;".toList) ∨
        (w = "|dec|".toList ∧ b = "x = x - 1;".toList) ∨
        (w = "|inc|".toList ∧ b = "x = x + 1;".toList) := by
      simp only [loadDefaults, define] at hlw
      by_cases h3 : w = "|reset|".toList
      · rw [if_pos h3] at hlw
        exact Or.inl ⟨h3, by injection hlw with hb; exact hb.symm⟩
      · rw [if_neg h3] at hlw
        by_cases h2 : w = "|dec|".toList
        · rw [if_pos h2] at hlw
          exact Or.inr (Or.inl ⟨h2, by injection hlw with hb; exact hb.symm⟩)
        · rw [if_neg h2] at hlw
          by_cases h1 : w = "|inc|".toList
          · rw [if_pos h1] at hlw
            exact Or.inr (Or.inr ⟨h1, by injection hlw with hb; exact hb.symm⟩)
          · rw [if_neg h1] at hlw; exact absurd hlw (by simp)
    simp only [substOne, hlw, Option.getD_some]
    rcases hcases with ⟨hwk, hbk⟩ | ⟨hwk, hbk⟩ | ⟨hwk, hbk⟩ <;> subst hwk <;> subst hbk <;> decide

theorem defaults_idem_words :
    ∀ ws : List (List Char), (∀ w ∈ ws, normalWord w) →
      expandWords loadDefaults (splitWords (expandWords loadDefaults ws)) =
        expandWords loadDefaults ws := by
  intro ws
  induction ws with
  | nil => intro _; simp [expandWords, splitWords, swAux]
  | cons w ws ih =>
    intro h
    show expandWords loadDefaults
        (splitWords (substOne loadDefaults w ++ ' ' :: expandWords loadDefaults ws)) = _
    rw [splitWords_append_space, expandWords_append,
      defaults_substOne_expand w (h w (List.mem_cons_self w ws)),
      ih (fun v hv => h v (List.mem_cons_of_mem w hv))]
    simp [expandWords, List.append_assoc]

--------------------------------------------------
-- CLAIMS ABOUT THE MACRO ENGINE (C2, C3, C4)
--------------------------------------------------

/-- C2 counterexample: with macro A defined as the invocation of macro B,
one expansion of the input A leaves the residual invocation B in the
output (B is still a defined macro name), so expansion does not repeat to
a fixed point with no residual invocation syntax. -/
theorem c2_counterexample :
    expand chainTable ('A' :: []) = 'B' :: ' ' :: [] ∧
    chainTable ('B' :: []) = some ('x' :: []) := by decide

/-- C2 amended: macro expansion is a single word-by-word substitution
pass: the words of the output are exactly the words of each input word
after one table lookup, with macro bodies never rescanned; consequently a
macro body that invokes another macro leaves that invocation in the
output, and only a further explicit call to expand rewrites it. -/
theorem c2_amended :
    (∀ (m : Table) (cs : List Char),
        splitWords (expand m cs) =
          (splitWords cs).flatMap (fun w => splitWords (substOne m w))) ∧
    expand chainTable (expand chainTable ('A' :: [])) = 'x' :: ' ' :: [] := by
  constructor
  · intro m cs
    exact splitWords_expandWords m (splitWords cs)
  · decide

/-- C3 counterexample: the one-character input a contains no macro
invocation under the empty table, yet expansion changes it (a trailing
space is appended); and with the chained table A to B to x, expanding the
result of an expansion changes it again, so expansion is not a fixed
point on already-expanded text. -/
theorem c3_counterexample :
    (∀ w ∈ splitWords ('a' :: []), (fun _ => (none : Option (List Char))) w = none) ∧
    expand (fun _ => none) ('a' :: []) ≠ 'a' :: [] ∧
    expand chainTable (expand chainTable ('A' :: [])) ≠
      expand chainTable ('A' :: []) := by decide

/-- C3 amended: expanding text with zero macro invocations returns its
whitespace-normalized form — the same expansion under the empty table,
each word followed by exactly one space — rather than the text itself;
and re-expansion is a fixed point for the built-in default table, whose
bodies are single-spaced and contain no macro names, though not for
arbitrary tables. -/
theorem c3_amended :
    (∀ (m : Table) (cs : List Char),
        (∀ w ∈ splitWords cs, m w = none) →
        expand m cs = expand (fun _ => none) cs) ∧
    (∀ cs : List Char,
        expand loadDefaults (expand loadDefaults cs) = expand loadDefaults cs) := by
  constructor
  · intro m cs h
    exact expandWords_eq_of_none m (splitWords cs) h
  · intro cs
    exact defaults_idem_words (splitWords cs) (splitWords_mem_normal cs)

/-- C3 witness: the amended no-invocation clause applied to the input a
under the default table, whose hypothesis holds since a is no macro name. -/
theorem c3_amended_witness :
    expand loadDefaults ('a' :: []) = expand (fun _ => none) ('a' :: []) :=
  c3_amended.1 loadDefaults ('a' :: []) (by decide)

/-- A table in which the macro A is defined twice with different bodies. -/
def redefTable : Table :=
  define (define (fun _ => none) ('A' :: []) ('b' :: '1' :: []))
    ('A' :: []) ('b' :: '2' :: [])

/-- C4 counterexample: defining macro A twice raises no error — the
second body silently wins — and expanding a word that resolves to no
macro raises no error either: the word passes through unchanged. -/
theorem c4_counterexample :
    redefTable ('A' :: []) = some ('b' :: '2' :: []) ∧
    expand redefTable ('M' :: ' ' :: 'A' :: []) =
      'M' :: ' ' :: 'b' :: '2' :: ' ' :: [] := by decide

/-- C4 amended: macro processing never fails: define silently overwrites
on redefinition (the later body replaces the earlier one for every
lookup), and expansion passes any word that is not a defined macro
through unchanged with a trailing space; no macro-expansion or
macro-redefinition error exists in the engine. -/
theorem c4_amended :
    (∀ (t : Table) (n r₁ r₂ : List Char),
        define (define t n r₁) n r₂ = define t n r₂) ∧
    (∀ (t : Table) (w : List Char),
        normalWord w → t w = none → expand t w = w ++ [' ']) := by
  constructor
  · intro t n r₁ r₂
    funext k
    simp only [define]
    by_cases hk : k = n
    · simp [hk]
    · simp [hk]
  · intro t w hn h
    show expandWords t (splitWords w) = w ++ [' ']
    rw [splitWords_normal w hn]
    simp [expandWords, substOne, h]

/-- C4 witness: the pass-through clause applied to the unknown macro word
M under the empty table. -/
theorem c4_amended_witness :
    expand (fun _ => none) ('M' :: []) = 'M' :: ' ' :: [] :=
  c4_amended.2 (fun _ => none) ('M' :: []) ⟨by decide, by decide⟩ rfl

--------------------------------------------------
-- CLAIMS ABOUT PARSER, IR AND PIPELINE (C1, C10, C9, C8)
--------------------------------------------------

/-- C1 counterexample: the source program x = 5; y = x; z = x + y; does
not parse into 3 Assignment nodes: parseExpression accepts only a single
number or identifier, so after reading z = x the parser meets the plus
token and throws the unexpected-statement error; the whole parse fails. -/
theorem c1_counterexample :
    Parser.parse (lexer ("x = 5; y = x; z = x + y;".toList)) =
      Except.error CompilerError.unexpectedStatement := rfl

/-- C1 amended: the prefix x = 5; y = x; parses to exactly 2 Assignment
nodes which the IR emitter lowers, in order, to STORE x with NUM(5) and
STORE y with REF(x); the third statement z = x + y; cannot be parsed at
all (and the IR emitter has no ADD form), the parser aborting at the plus
token. -/
theorem c1_amended :
    Parser.parse (lexer ("x = 5; y = x;".toList)) =
      Except.ok [Stmt.assignment "x" (Expr.numberExpr "5"),
        Stmt.assignment "y" (Expr.identifierExpr "x")] ∧
    IREmitter.emit [Stmt.assignment "x" (Expr.numberExpr "5"),
        Stmt.assignment "y" (Expr.identifierExpr "x")] =
      "STORE x <- NUM(5)\nSTORE y <- REF(x)\n" := ⟨rfl, rfl⟩

/-- The token stream of x = 5 y = 6 with no end-of-line tokens, ended by
the end-of-file token. -/
def c10tokens : List Token :=
  [⟨TokenType.identifier, "x"⟩, ⟨TokenType.assign, "="⟩, ⟨TokenType.number, "5"⟩,
   ⟨TokenType.identifier, "y"⟩, ⟨TokenType.assign, "="⟩, ⟨TokenType.number, "6"⟩,
   ⟨TokenType.endOfFile, ""⟩]

/-- C10: the statement terminator is optional: parseAssignment consumes
an end-of-line token only when present, so the token stream of
x = 5 y = 6 without end-of-line tokens parses into two Assignments. -/
theorem c10_optional_terminator :
    Parser.parse c10tokens =
      Except.ok [Stmt.assignment "x" (Expr.numberExpr "5"),
        Stmt.assignment "y" (Expr.numberExpr "6")] := rfl

/-- C9: a self-referential assignment never trips the undeclared check,
whatever was declared before: the target name is inserted into the
declared set before the right-hand side is inspected, so analysis just
moves on; in particular the one-statement program x = x; analyzes
successfully. -/
theorem c9_self_assignment :
    (∀ (declared : List String) (n : String) (rest : List Stmt),
        SemanticAnalyzer.analyzeAux declared
            (Stmt.assignment n (Expr.identifierExpr n) :: rest) =
          SemanticAnalyzer.analyzeAux (n :: declared) rest) ∧
    (∀ n : String,
        SemanticAnalyzer.analyze [Stmt.assignment n (Expr.identifierExpr n)] =
          Except.ok ()) := by
  constructor
  · intro d n rest
    simp [SemanticAnalyzer.analyzeAux]
  · intro n
    simp [SemanticAnalyzer.analyze, SemanticAnalyzer.analyzeAux]

/-- C8: compilation is a pure function of the source text and the macro
table: two runs on equal inputs produce equal assembly.  Every stage is
deterministic; the sole container with unspecified iteration order in the
C++ (the unordered_map of macros) is only ever queried pointwise. -/
theorem c8_deterministic (m m' : Table) (src src' : List Char)
    (hm : m = m') (hs : src = src') : compile m src = compile m' src' := by
  rw [hm, hs]

/-- C8 witness: two runs of the pipeline on the program x = 5; with the
default macro table. -/
theorem c8_witness :
    compile loadDefaults ("x = 5;".toList) = compile loadDefaults ("x = 5;".toList) :=
  c8_deterministic loadDefaults loadDefaults _ _ rfl rfl

--------------------------------------------------
-- CLAIM ABOUT THE GENERATED ASSEMBLY SHAPE (C7)
--------------------------------------------------

/-- The concatenation of the per-statement text contributed by f. -/
def catMap (f : Stmt → String) : List Stmt → String
  | [] => ""
  | s :: rest => f s ++ catMap f rest

theorem foldl_append_catMap (f : Stmt → String) (step : String → Stmt → String)
    (hstep : ∀ acc s, step acc s = acc ++ f s) :
    ∀ (l : List Stmt) (acc : String), l.foldl step acc = acc ++ catMap f l := by
  intro l
  induction l with
  | nil => intro acc; simp [catMap, String.append_empty]
  | cons s rest ih =>
    intro acc
    rw [List.foldl_cons, hstep, ih, catMap, String.append_assoc]

/-- C7: the generated assembly is the data section followed by the text
section in which the _start entry label is immediately followed by the
code of the free-standing top-level statements, and the entry point ends
with the process-exit sequence exit(0): rax set to syscall 60 with rdi
zeroed. -/
theorem c7_entry_exit (stmts : List Stmt) :
    NASMGenerator.generate stmts =
      "section .data\n" ++ catMap NASMGenerator.dataLine stmts ++
        "\nsection .text\n global _start\n_start:\n" ++
        catMap NASMGenerator.entryCode stmts ++ NASMGenerator.exitSequence := by
  have hd : ∀ (acc : String) (s : Stmt),
      (match s with
        | Stmt.assignment n _ => acc ++ n ++ " dq 0\n"
        | _ => acc) = acc ++ NASMGenerator.dataLine s := by
    intro acc s
    match s with
    | Stmt.assignment n v => simp [NASMGenerator.dataLine, String.append_assoc]
    | Stmt.functionDef n p b => simp [NASMGenerator.dataLine, String.append_empty]
    | Stmt.returnStmt => simp [NASMGenerator.dataLine, String.append_empty]
  have he : ∀ (acc : String) (s : Stmt),
      (match s with
        | Stmt.assignment n (Expr.numberExpr v) =>
          acc ++ "    mov rax, " ++ v ++ "\n" ++ "    mov [" ++ n ++ "], rax\n"
        | Stmt.assignment n (Expr.identifierExpr i) =>
          acc ++ "    mov rax, [" ++ i ++ "]\n" ++ "    mov [" ++ n ++ "], rax\n"
        | _ => acc) = acc ++ NASMGenerator.entryCode s := by
    intro acc s
    match s with
    | Stmt.assignment n (Expr.numberExpr v) =>
      simp [NASMGenerator.entryCode, String.append_assoc]
    | Stmt.assignment n (Expr.identifierExpr i) =>
      simp [NASMGenerator.entryCode, String.append_assoc]
    | Stmt.functionDef n p b => simp [NASMGenerator.entryCode, String.append_empty]
    | Stmt.returnStmt => simp [NASMGenerator.entryCode, String.append_empty]
  show (stmts.foldl _ ((stmts.foldl _ "section .data\n") ++
      "\nsection .text\n global _start\n_start:\n")) ++
      "    mov rax, 60\n    xor rdi, rdi\n    syscall\n" = _
  rw [foldl_append_catMap NASMGenerator.dataLine _ hd stmts,
    foldl_append_catMap NASMGenerator.entryCode _ he stmts]
  simp [NASMGenerator.exitSequence, String.append_assoc]

--------------------------------------------------
-- CLAIM ABOUT RETURN PLACEMENT (C6)
--------------------------------------------------

theorem checkReturns_fnFree :
    ∀ (body : List Stmt), body.all (fun t => !(isFnDef t)) = true →
      checkReturns true body = Except.ok () := by
  intro body
  induction body with
  | nil => intro _; simp [checkReturns]
  | cons s rest ih =>
    intro h
    simp only [List.all_cons, Bool.and_eq_true] at h
    match s with
    | Stmt.functionDef n p b => simp [isFnDef] at h
    | Stmt.returnStmt =>
      simp only [checkReturns, if_pos rfl]
      exact ih h.2
    | Stmt.assignment n v =>
      simp only [checkReturns]
      exact ih h.2

/-- C6: with function definitions confined to the top level (the spec
allows no nested function declarations), the return-placement check
accepts a statement list exactly when it has no top-level return — a
return inside a function body is accepted, a return outside every
function body is rejected with the return-outside-function error. -/
theorem c6_return_placement (stmts : List Stmt) (h : noNestedFn stmts = true) :
    checkReturns false stmts =
      if stmts.all (fun s => !(isReturn s)) then Except.ok ()
      else Except.error CompilerError.returnOutsideFunction := by
  induction stmts with
  | nil => simp [checkReturns]
  | cons s rest ih =>
    simp only [noNestedFn, List.all_cons, Bool.and_eq_true] at h
    obtain ⟨h1, h2⟩ := h
    have ihr := ih h2
    match s with
    | Stmt.functionDef n p b =>
      have hb : b.all (fun t => !(isFnDef t)) = true := h1
      simp only [checkReturns, checkReturns_fnFree b hb]
      rw [ihr]
      simp [isReturn]
    | Stmt.returnStmt =>
      simp [checkReturns, isReturn]
    | Stmt.assignment n v =>
      simp only [checkReturns]
      rw [ihr]
      simp [isReturn]

/-- A function body containing a return, followed by a top-level
assignment. -/
def c6prog : List Stmt :=
  [Stmt.functionDef "f" [] [Stmt.returnStmt],
   Stmt.assignment "x" (Expr.numberExpr "1")]

/-- C6 witness: the check applied to a program whose only return sits
inside a function body accepts it. -/
theorem c6_witness : checkReturns false c6prog = Except.ok () := by
  have h := c6_return_placement c6prog (by decide)
  simpa [c6prog, isReturn] using h

--------------------------------------------------
-- CLAIM ABOUT DECLARATION-BEFORE-USE (C5)
--------------------------------------------------

theorem targetsOf_cons_assignment (t : String) (v : Expr) (l : List Stmt) :
    targetsOf (Stmt.assignment t v :: l) = t :: targetsOf l := rfl

theorem targetsOf_cons_functionDef (fn : String) (fp : List String)
    (fb : List Stmt) (l : List Stmt) :
    targetsOf (Stmt.functionDef fn fp fb :: l) = targetsOf l := rfl

theorem targetsOf_cons_returnStmt (l : List Stmt) :
    targetsOf (Stmt.returnStmt :: l) = targetsOf l := rfl

/-- Unfolding a use-before-declaration witness across a leading
assignment: either the leading statement itself is the offending use, or
the witness lives in the tail with the target added to the declared
set. -/
theorem ubd_cons_assignment (t : String) (v : Expr) (rest : List Stmt)
    (d : List String) (n : String) :
    usedBeforeDeclFrom d (Stmt.assignment t v :: rest) n ↔
      ((v = Expr.identifierExpr n ∧ n ∉ t :: d) ∨
        usedBeforeDeclFrom (t :: d) rest n) := by
  constructor
  · rintro ⟨i, hi, ⟨t0, hget⟩, hnd, hnt⟩
    match i, hi with
    | 0, hi =>
      have hs : Stmt.assignment t v = Stmt.assignment t0 (Expr.identifierExpr n) := hget
      injection hs with ht hv
      have hnt1 : n ∉ targetsOf [Stmt.assignment t v] := by
        simpa using hnt
      left
      refine ⟨hv, ?_⟩
      intro hc
      rcases List.mem_cons.mp hc with hc1 | hc2
      · refine hnt1 ?_
        rw [targetsOf_cons_assignment, hc1]
        exact List.mem_cons_self t (targetsOf [])
      · exact hnd hc2
    | Nat.succ j, hi =>
      right
      have hj : j < rest.length := Nat.lt_of_succ_lt_succ (by simpa using hi)
      have hget2 : rest.get ⟨j, hj⟩ = Stmt.assignment t0 (Expr.identifierExpr n) := hget
      have hnt2 : n ∉ t :: targetsOf (rest.take (j + 1)) := by
        rw [← targetsOf_cons_assignment t v, ← List.take_succ_cons]
        exact hnt
      refine ⟨j, hj, ⟨t0, hget2⟩, ?_, ?_⟩
      · intro hc
        rcases List.mem_cons.mp hc with h1 | h2
        · exact hnt2 (h1 ▸ List.mem_cons_self t (targetsOf (rest.take (j + 1))))
        · exact hnd h2
      · intro hc
        exact hnt2 (List.mem_cons_of_mem t hc)
  · rintro (⟨hv, hmem⟩ | ⟨j, hj, hp, hmd, hmt⟩)
    · refine ⟨0, by simp, ⟨t, by rw [hv]; rfl⟩, ?_, ?_⟩
      · intro hc
        exact hmem (List.mem_cons_of_mem t hc)
      · intro hc
        have hc2 : n ∈ targetsOf [Stmt.assignment t v] := by simpa using hc
        rw [targetsOf_cons_assignment] at hc2
        rcases List.mem_cons.mp hc2 with h1 | h2
        · exact hmem (by rw [h1]; exact List.mem_cons_self t d)
        · exact absurd h2 (by simp [targetsOf])
    · refine ⟨j + 1, by simpa using Nat.succ_lt_succ hj, hp, ?_, ?_⟩
      · intro hc
        exact hmd (List.mem_cons_of_mem t hc)
      · rw [List.take_succ_cons, targetsOf_cons_assignment]
        intro hc
        rcases List.mem_cons.mp hc with h1 | h2
        · exact hmd (by rw [h1]; exact List.mem_cons_self t d)
        · exact hmt h2

/-- Unfolding a use-before-declaration witness across a leading
non-assignment statement, which neither uses nor declares anything. -/
theorem ubd_cons_other (s : Stmt) (rest : List Stmt) (d : List String) (n : String)
    (hna : ∀ t v, s ≠ Stmt.assignment t v)
    (hts : ∀ l : List Stmt, targetsOf (s :: l) = targetsOf l) :
    usedBeforeDeclFrom d (s :: rest) n ↔ usedBeforeDeclFrom d rest n := by
  constructor
  · rintro ⟨i, hi, ⟨t0, hget⟩, hnd, hnt⟩
    match i, hi with
    | 0, hi => exact absurd hget (hna t0 (Expr.identifierExpr n))
    | Nat.succ j, hi =>
      have hj : j < rest.length := Nat.lt_of_succ_lt_succ (by simpa using hi)
      refine ⟨j, hj, ⟨t0, hget⟩, hnd, ?_⟩
      intro hc
      refine hnt ?_
      rw [List.take_succ_cons, hts]
      exact hc
  · rintro ⟨j, hj, hp, hnd, hnt⟩
    refine ⟨j + 1, by simpa using Nat.succ_lt_succ hj, hp, hnd, ?_⟩
    rw [List.take_succ_cons, hts]
    exact hnt

theorem analyzeAux_ubd (stmts : List Stmt) :
    ∀ (d : List String) (n : String),
      usedBeforeDeclFrom d stmts n →
      ∃ m, SemanticAnalyzer.analyzeAux d stmts =
          Except.error (CompilerError.undeclaredVariable m) ∧
        usedBeforeDeclFrom d stmts m := by
  induction stmts with
  | nil =>
    intro d n h
    obtain ⟨i, hi, _⟩ := h
    simp at hi
  | cons s rest ih =>
    intro d n h
    rcases s with ⟨t, v⟩ | ⟨fn, fp, fb⟩ | _
    · rcases v with ⟨val⟩ | ⟨u⟩
      · rcases (ubd_cons_assignment t (Expr.numberExpr val) rest d n).mp h with
          ⟨hv, _⟩ | hrest
        · exact absurd hv (by simp)
        · obtain ⟨m, herr, hm⟩ := ih (t :: d) n hrest
          refine ⟨m, ?_, ?_⟩
          · simpa [SemanticAnalyzer.analyzeAux] using herr
          · exact (ubd_cons_assignment t (Expr.numberExpr val) rest d m).mpr (Or.inr hm)
      · by_cases hu : u ∈ t :: d
        · rcases (ubd_cons_assignment t (Expr.identifierExpr u) rest d n).mp h with
            ⟨hv, hmem⟩ | hrest
          · injection hv with hun
            exact absurd hu (hun ▸ hmem)
          · obtain ⟨m, herr, hm⟩ := ih (t :: d) n hrest
            refine ⟨m, ?_, ?_⟩
            · simp only [SemanticAnalyzer.analyzeAux]
              rw [if_pos hu]
              exact herr
            · exact (ubd_cons_assignment t (Expr.identifierExpr u) rest d m).mpr (Or.inr hm)
        · refine ⟨u, ?_, ?_⟩
          · simp only [SemanticAnalyzer.analyzeAux]
            rw [if_neg hu]
          · exact (ubd_cons_assignment t (Expr.identifierExpr u) rest d u).mpr
              (Or.inl ⟨rfl, hu⟩)
    · have hiff := fun x => ubd_cons_other (Stmt.functionDef fn fp fb) rest d x
        (fun t v h => Stmt.noConfusion h)
        (fun l => targetsOf_cons_functionDef fn fp fb l)
      obtain ⟨m, herr, hm⟩ := ih d n ((hiff n).mp h)
      refine ⟨m, ?_, (hiff m).mpr hm⟩
      simpa [SemanticAnalyzer.analyzeAux] using herr
    · have hiff := fun x => ubd_cons_other Stmt.returnStmt rest d x
        (fun t v h => Stmt.noConfusion h)
        (fun l => targetsOf_cons_returnStmt l)
      obtain ⟨m, herr, hm⟩ := ih d n ((hiff n).mp h)
      refine ⟨m, ?_, (hiff m).mpr hm⟩
      simpa [SemanticAnalyzer.analyzeAux] using herr

/-- C5: whenever some identifier is used before any enclosing
declaration, semantic analysis fails with the undeclared-variable error,
and the identifier the diagnostic names is itself one that is used
before any enclosing declaration (the first such use encountered). -/
theorem c5_undeclared (stmts : List Stmt) (n : String) (h : usedBeforeDecl stmts n) :
    ∃ m, SemanticAnalyzer.analyze stmts =
        Except.error (CompilerError.undeclaredVariable m) ∧
      usedBeforeDecl stmts m :=
  analyzeAux_ubd stmts [] n h

/-- C5 witness: the program y = x; uses x before any declaration and is
rejected with an undeclared-variable diagnostic. -/
theorem c5_witness :
    ∃ m, SemanticAnalyzer.analyze [Stmt.assignment "y" (Expr.identifierExpr "x")] =
        Except.error (CompilerError.undeclaredVariable m) ∧
      usedBeforeDecl [Stmt.assignment "y" (Expr.identifierExpr "x")] m :=
  c5_undeclared [Stmt.assignment "y" (Expr.identifierExpr "x")] "x"
    ⟨0, by simp, ⟨"y", rfl⟩, by simp, by decide⟩
